import Mathlib

/-!
Shallow embedding of the semantic response cache subsystem
(cache-store.js, cache-similarity.js, cache-index.js, cache-compression.js)
and proofs about its behaviour.

JavaScript dynamic values are modelled by the mutual inductive `JsVal`;
`undefined` and `null` are distinguished, property access on
`null`/`undefined` raises a `TypeError` as in JavaScript, and property
access on other non-object values yields `undefined`.
-/

set_option autoImplicit false

namespace Lulu

/-- JavaScript runtime errors that the modelled code can raise. -/
inductive JsErr where
  | typeError
  | parseError
deriving DecidableEq

mutual

/-- A JavaScript value (the fragment needed by the cache module). -/
inductive JsVal where
  | undefined
  | null
  | bool (b : Bool)
  | num (n : Int)
  | str (s : String)
  | obj (fs : JsFields)

/-- Fields of a JavaScript object, in insertion order. -/
inductive JsFields where
  | nil
  | cons (k : String) (v : JsVal) (rest : JsFields)

end

/-- Build an object field list from a `List` of key/value pairs. -/
def fieldsOf : List (String × JsVal) → JsFields
  | [] => .nil
  | (k, v) :: rest => .cons k v (fieldsOf rest)

/-- Look up a field; yields `undefined` when the field is missing (JS semantics). -/
def findField : JsFields → String → JsVal
  | .nil, _ => .undefined
  | .cons k v rest, key => if k = key then v else findField rest key

/-- JavaScript truthiness. -/
def jsTruthy : JsVal → Bool
  | .undefined => false
  | .null => false
  | .bool b => b
  | .num n => n != 0
  | .str s => s ≠ ""
  | .obj _ => true

/-- Property access `v.key`: a `TypeError` on `null`/`undefined`, the field value
(or `undefined`) on objects, `undefined` on other primitives. -/
def getFieldE : JsVal → String → Except JsErr JsVal
  | .undefined, _ => .error .typeError
  | .null, _ => .error .typeError
  | .obj fs, key => .ok (findField fs key)
  | .bool _, _ => .ok .undefined
  | .num _, _ => .ok .undefined
  | .str _, _ => .ok .undefined

/-! ### Store (cache-store.js)

The store keeps an insertion-ordered map from keys to entries
`{ value, createdAt, expiresAt }` (a JavaScript `Map`). -/

/-- A store entry `{ value, createdAt, expiresAt }`. -/
structure Entry where
  value : JsVal
  createdAt : Nat
  expiresAt : Nat

/-- The in-memory store `_store`: an insertion-ordered key/entry map. -/
abbrev Store := List (String × Entry)

/-- The JavaScript object that `store.get` hands back to callers. -/
def Entry.toJs (e : Entry) : JsVal :=
  .obj (fieldsOf [("value", e.value), ("createdAt", .num e.createdAt),
                  ("expiresAt", .num e.expiresAt)])

/-- `Map.prototype.get` on the store. -/
def mapLookup : Store → String → Option Entry
  | [], _ => none
  | (k, e) :: rest, key => if k = key then some e else mapLookup rest key

/-- `Map.prototype.set`: overwrite in place, else append (insertion order kept). -/
def mapSet : Store → String → Entry → Store
  | [], key, e => [(key, e)]
  | (k, e') :: rest, key, e =>
      if k = key then (key, e) :: rest else (k, e') :: mapSet rest key e

/-- `Map.prototype.delete`. -/
def mapErase : Store → String → Store
  | [], _ => []
  | (k, e) :: rest, key => if k = key then rest else (k, e) :: mapErase rest key

/-- `storeService.set(key, value, ttl)`: `expiresAt = now + ttl`, insert or overwrite. -/
def storeSet (st : Store) (now : Nat) (key : String) (value : JsVal) (ttl : Nat) : Store :=
  mapSet st key { value := value, createdAt := now, expiresAt := now + ttl }

/-- `storeService.get(key)`: `null` if absent; lazily delete and return `null`
when `item.expiresAt < now`; otherwise the entry. Returns the (possibly
updated) store alongside the result. -/
def storeGet (st : Store) (now : Nat) (key : String) : Option Entry × Store :=
  match mapLookup st key with
  | none => (none, st)
  | some item =>
      if item.expiresAt < now then (none, mapErase st key) else (some item, st)

/-- `storeService.cleanup()`: delete every entry with `expiresAt < now`,
returning the number removed and the swept store. -/
def storeCleanup (st : Store) (now : Nat) : Nat × Store :=
  match st with
  | [] => (0, [])
  | (k, item) :: rest =>
      let r := storeCleanup rest now
      if item.expiresAt < now then (r.1 + 1, r.2) else (r.1, (k, item) :: r.2)

/-- `storeService.getKeys()`. -/
def getKeys (st : Store) : List String := st.map Prod.fst

/-! ### Similarity matcher (cache-similarity.js) -/

/-- Configuration of the similarity service (`_config`). -/
structure SimCfg where
  enabled : Bool := true
  threshold : ℚ := 8 / 10
  ignoreCase : Bool := true
  normalizeText : Bool := true
  useCache : Bool := true
  cacheSize : Nat := 500

/-- `String.prototype.toLowerCase` (character-wise lower-casing). -/
def jsToLower (s : String) : String := String.mk (s.data.map Char.toLower)

/-- `String.prototype.trim`: drop leading and trailing whitespace. -/
def jsTrim (s : String) : String :=
  String.mk (((s.data.dropWhile Char.isWhitespace).reverse.dropWhile Char.isWhitespace).reverse)

/-- A character matched by the regex class `\w` (ASCII word character). -/
def isWordChar (c : Char) : Bool := c.isAlphanum || c = '_'

/-- Collapse runs of spaces to a single space (the effect of
replacing the regex `\s+` by a single space after whitespace was mapped to a space). -/
def squeezeSpaces : List Char → List Char
  | [] => []
  | [c] => [c]
  | a :: b :: rest =>
      if a = ' ' && b = ' ' then squeezeSpaces (b :: rest)
      else a :: squeezeSpaces (b :: rest)

/-- Remove leading and trailing spaces. -/
def trimSpaces (cs : List Char) : List Char :=
  ((cs.dropWhile (· = ' ')).reverse.dropWhile (· = ' ')).reverse

/-- `similarityService._normalize(text)`: empty on falsy input, lower-case when
`ignoreCase`, and when `normalizeText` strip non-word/non-space characters,
collapse whitespace runs to a single space, and trim. -/
def simNormalize (cfg : SimCfg) (text : String) : String :=
  if text = "" then ""
  else
    let lowered := if cfg.ignoreCase then jsToLower text else text
    if cfg.normalizeText then
      let stripped := lowered.toList.filter (fun c => isWordChar c || c.isWhitespace)
      let spaced := stripped.map (fun c => if c.isWhitespace then ' ' else c)
      String.mk (trimSpaces (squeezeSpaces spaced))
    else lowered

/-- Substitution cost of the dynamic-programming recurrence
(`a[i-1] === b[j-1] ? 0 : 1`). -/
def levCost (c d : Char) : Nat := if c = d then 0 else 1

/-- One inner iteration block of `_levenshteinSim`: walk the remaining
characters of `b` with the remaining suffix of the previous matrix row,
carrying the cell to the left of the one being computed. -/
def levRowGo (c : Char) : List Char → List Nat → Nat → List Nat
  | [], _, _ => []
  | d :: ds, prev, left =>
      match prev with
      | [] => []
      | diag :: rest =>
          let up := match rest with | [] => 0 | u :: _ => u
          let v := min (min (up + 1) (left + 1)) (diag + levCost c d)
          v :: levRowGo c ds rest v

/-- The outer loop of `_levenshteinSim`: one matrix row per character of `a`,
each row starting with its row index. -/
def levRowsLoop (bs : List Char) : List Char → List Nat → Nat → List Nat
  | [], row, _ => row
  | c :: cs, row, i => levRowsLoop bs cs ((i + 1) :: levRowGo c bs row (i + 1)) (i + 1)

/-- The edit distance computed by `_levenshteinSim`:
`matrix[a.length][b.length]` of the dynamic program. -/
def levenshtein (a b : String) : Nat :=
  let as := a.toList
  let bs := b.toList
  (levRowsLoop bs as (List.range (bs.length + 1)) 0).getD bs.length 0

/-- The textbook Levenshtein distance between the length-`i` prefix of `a` and
the length-`j` prefix of `b`, written as the standard recurrence. Used as the
independent meaning of the word "levenshtein" in the specification. -/
def levN (a b : List Char) (i j : Nat) : Nat :=
  match i, j with
  | 0, j => j
  | i + 1, 0 => i + 1
  | i + 1, j + 1 =>
      min (min (levN a b i (j + 1) + 1) (levN a b (i + 1) j + 1))
        (levN a b i j + levCost (a.getD i ' ') (b.getD j ' '))

/-- `_levenshteinSim(a, b) = 1 - distance / max(a.length, b.length)`. -/
def levenshteinSim (a b : String) : ℚ :=
  1 - (levenshtein a b : ℚ) / ((max a.toList.length b.toList.length : ℕ) : ℚ)

/-- The score `_calculate(a, b)` computes (ignoring its performance memo):
`1.0` for identical strings, `0.0` when either is empty, otherwise the
normalized edit-distance similarity. -/
def calcScore (a b : String) : ℚ :=
  if a = b then 1
  else if a = "" ∨ b = "" then 0
  else levenshteinSim a b

/-- Lexicographic comparison of character lists, as JavaScript's default
`Array.prototype.sort` comparator orders strings by code units. -/
def charListLt : List Char → List Char → Bool
  | [], [] => false
  | [], _ :: _ => true
  | _ :: _, [] => false
  | c :: cs, d :: ds => if c < d then true else if d < c then false else charListLt cs ds

/-- The memo key `[a, b].sort().join('||')`. -/
def memoKey (a b : String) : String :=
  if charListLt b.toList a.toList then b ++ "||" ++ a else a ++ "||" ++ b

/-- The similarity memo `_cache`: an insertion-ordered map from pair keys to scores. -/
abbrev SimMemo := List (String × ℚ)

/-- Lookup in the memo. -/
def memoLookup : SimMemo → String → Option ℚ
  | [], _ => none
  | (k, v) :: rest, key => if k = key then some v else memoLookup rest key

/-- `_calculate(a, b)` with its memo: early returns for identical/empty inputs,
memo hit, otherwise compute; before inserting, when `cache.size > cacheSize`
delete the first-inserted entry (`this._cache.keys().next().value`). -/
def simCalculate (cfg : SimCfg) (cache : SimMemo) (a b : String) : ℚ × SimMemo :=
  if a = b then (1, cache)
  else if a = "" ∨ b = "" then (0, cache)
  else
    let key := memoKey a b
    if cfg.useCache then
      match memoLookup cache key with
      | some v => (v, cache)
      | none =>
          let score := levenshteinSim a b
          let cache' := if cache.length > cfg.cacheSize then cache.tail else cache
          (score, cache' ++ [(key, score)])
    else (levenshteinSim a b, cache)

/-- The record `{ key, query, score }` built by `findBestMatch`. -/
structure SimMatch where
  key : String
  query : String
  score : ℚ
deriving DecidableEq

/-- One iteration of the `findBestMatch` loop:
`if (score > threshold && (!best || score > best.score)) best = {key, query: value, score}`. -/
def fbmStep (cfg : SimCfg) (t : ℚ) (nq : String) (best : Option SimMatch)
    (kv : String × String) : Option SimMatch :=
  let score := calcScore nq (simNormalize cfg kv.2)
  match best with
  | none => if score > t then some ⟨kv.1, kv.2, score⟩ else none
  | some b => if score > t ∧ score > b.score then some ⟨kv.1, kv.2, score⟩ else some b

/-- `similarityService.findBestMatch(query, pool, threshold)` (the candidate
pool is the insertion-ordered entry list of the pool object). -/
def findBestMatch (cfg : SimCfg) (query : String) (pool : List (String × String))
    (t : ℚ) : Option SimMatch :=
  if cfg.enabled = false ∨ query = "" then none
  else pool.foldl (fbmStep cfg t (simNormalize cfg query)) none

/-! ### Compression codec (cache-compression.js)

`JSON.stringify`/`JSON.parse` and `gzip`+`base64` are Node builtins, not part
of this repository; they are modelled as the fields of a `Codec`, and the
theorems that need their contracts take them as explicit hypotheses. -/

/-- The external serialization and compression collaborators:
`stringify`/`parse` stand for `JSON.stringify`/`JSON.parse`, and
`deflate`/`inflate` for base64-of-gzip and its inverse. -/
structure Codec where
  stringify : JsVal → String
  parse : String → Option JsVal
  deflate : String → String
  inflate : String → String

/-- Configuration of the compression service (`_config`). -/
structure CompCfg where
  enabled : Bool := true
  minLength : Nat := 500

/-- `compressionService.compress(payload)`: unchanged when disabled or when the
serialized string is shorter than `minLength`; otherwise the tagged wrapper
with `compressed`, `encoding`, `data` and `originalLength`. -/
def compress (c : Codec) (cfg : CompCfg) (payload : JsVal) : JsVal :=
  if cfg.enabled = false then payload
  else
    let str := c.stringify payload
    if str.length < cfg.minLength then payload
    else
      .obj (fieldsOf [("compressed", .bool true), ("encoding", .str "gzip"),
        ("data", .str (c.deflate str)), ("originalLength", .num str.length)])

/-- `compressionService.decompress(entry)`: the entry itself when
`entry.compressed` is falsy, otherwise decode, inflate and parse `entry.data`.
A malformed `data` surfaces as an error, as the exceptions thrown by
`Buffer.from`/`gunzip`/`JSON.parse` do. -/
def decompress (c : Codec) (entry : JsVal) : Except JsErr JsVal := do
  let comp ← getFieldE entry "compressed"
  if jsTruthy comp = false then return entry
  let dat ← getFieldE entry "data"
  match dat with
  | .str s =>
      match c.parse (c.inflate s) with
      | some v => return v
      | none => throw .parseError
  | _ => throw .typeError

/-! ### Cache facade (cache-index.js) -/

/-- The facade `_config` (with the pieces handed to the sub-services). -/
structure CacheCfg where
  enabled : Bool := true
  simEnabled : Bool := true
  simThreshold : ℚ := 8 / 10
  compEnabled : Bool := true
  compMinLength : Nat := 500
  ttl : Nat := 2592000000

/-- The similarity configuration the facade installs
(`similarity.initialize(this._config.similarity)` merged over the defaults). -/
def simCfgOf (cfg : CacheCfg) : SimCfg :=
  { enabled := cfg.simEnabled, threshold := cfg.simThreshold }

/-- The compression configuration the facade installs. -/
def compCfgOf (cfg : CacheCfg) : CompCfg :=
  { enabled := cfg.compEnabled, minLength := cfg.compMinLength }

/-- The `options` argument of `set`/`get`. -/
structure CacheOpts where
  key : Option String := none
  userId : Option String := none
  model : Option String := none

/-- JavaScript truthiness of `options.key` (an empty string is falsy). -/
def truthyKey : Option String → Option String
  | none => none
  | some k => if k = "" then none else some k

/-- The hash input `query.toLowerCase().trim() + "|" + (userId || "") + "|" + (model || "")`. -/
def genKeyBase (q : String) (userId model : Option String) : String :=
  jsTrim (jsToLower q) ++ "|" ++ userId.getD "" ++ "|" ++ model.getD ""

/-- `cacheModule._generateKey(query, options)` for a string query, with the
`md5` content hash abstracted as `hash`. -/
def generateKey (hash : String → String) (q : String) (userId model : Option String) : String :=
  "cache:" ++ hash (genKeyBase q userId model)

/-- `_generateKey` on a dynamic query value: `query.toLowerCase()` raises a
`TypeError` unless the query is a string. -/
def jsGenerateKey (hash : String → String) (query : JsVal) (opts : CacheOpts) :
    Except JsErr String :=
  match query with
  | .str s => .ok (generateKey hash s opts.userId opts.model)
  | _ => .error .typeError

/-- `cacheModule.set(query, response, options)`: resolve the key, build the
`{query, response, meta}` payload, compress it when serialized length exceeds
the threshold, and write it to the store with the configured TTL. -/
def cacheSet (c : Codec) (hash : String → String) (cfg : CacheCfg) (st : Store)
    (now : Nat) (query response : JsVal) (opts : CacheOpts) :
    Except JsErr (Bool × Store) :=
  if cfg.enabled = false then .ok (false, st)
  else do
    let key ← match truthyKey opts.key with
      | some k => pure k
      | none => jsGenerateKey hash query opts
    let payload := JsVal.obj (fieldsOf [("query", query), ("response", response),
      ("meta", .obj (fieldsOf [("ts", .num now), ("key", .str key)]))])
    let payload :=
      if cfg.compEnabled && decide ((c.stringify payload).length > cfg.compMinLength)
      then compress c (compCfgOf cfg) payload
      else payload
    return (true, storeSet st now key payload cfg.ttl)

/-- `cacheModule._getByKey(key)`: an exact store lookup; `null` on miss,
otherwise decompress if the fetched value is tagged and return its
`response` property. -/
def getByKey (c : Codec) (st : Store) (now : Nat) (key : String) :
    Except JsErr (JsVal × Store) :=
  let r := storeGet st now key
  match r.1 with
  | none => .ok (.null, r.2)
  | some e => do
      let cachedJs := e.toJs
      let comp ← getFieldE cachedJs "compressed"
      let cached ← if jsTruthy comp then decompress c cachedJs else pure cachedJs
      let resp ← getFieldE cached "response"
      return (resp, r.2)

/-- The pool-building loop of `_findSimilar`: for each key, fetch the entry and
read its stored query (`item.compressed ? decompress(item).query : item.query`),
accumulating a `{key: query}` pool. A `null` fetch result is dereferenced. -/
def poolLoop (c : Codec) (now : Nat) :
    List String → Store → List (String × JsVal) → Except JsErr (List (String × JsVal) × Store)
  | [], st, acc => .ok (acc, st)
  | k :: keys, st, acc =>
      let r := storeGet st now k
      let itemJs := match r.1 with | some e => e.toJs | none => .null
      do
        let comp ← getFieldE itemJs "compressed"
        let q ← if jsTruthy comp then do
            let d ← decompress c itemJs
            getFieldE d "query"
          else getFieldE itemJs "query"
        poolLoop c now keys r.2 (acc ++ [(k, q)])

/-- `_normalize` applied to a dynamic pool value: falsy values normalize to the
empty string; a truthy non-string raises a `TypeError` (no `toLowerCase`). -/
def jsNormalize (cfg : SimCfg) (v : JsVal) : Except JsErr String :=
  if jsTruthy v = false then .ok ""
  else match v with
    | .str s => .ok (simNormalize cfg s)
    | _ => .error .typeError

/-- The match record of `findBestMatch` when the pool holds dynamic values. -/
structure JsSimMatch where
  key : String
  value : JsVal
  score : ℚ

/-- The `findBestMatch` candidate loop over a dynamic pool. -/
def jsFbmLoop (cfg : SimCfg) (t : ℚ) (nq : String) :
    List (String × JsVal) → Option JsSimMatch → Except JsErr (Option JsSimMatch)
  | [], best => .ok best
  | (k, v) :: rest, best => do
      let cand ← jsNormalize cfg v
      let score := calcScore nq cand
      let keep : Bool := match best with
        | none => decide (score > t)
        | some b => decide (score > t) && decide (score > b.score)
      jsFbmLoop cfg t nq rest (if keep then some ⟨k, v, score⟩ else best)

/-- `findBestMatch(query, pool, threshold)` as invoked by the facade, over a
pool of dynamic values. -/
def jsFindBestMatch (cfg : SimCfg) (query : JsVal) (pool : List (String × JsVal))
    (t : ℚ) : Except JsErr (Option JsSimMatch) :=
  if cfg.enabled = false ∨ jsTruthy query = false then .ok none
  else do
    let nq ← jsNormalize cfg query
    jsFbmLoop cfg t nq pool none

/-- `cacheModule._findSimilar(query)`: rebuild the `{key: query}` pool from
every stored key, delegate to the similarity matcher, and on a match re-fetch
and (if tagged) decompress the matching entry. -/
def findSimilar (c : Codec) (cfg : CacheCfg) (st : Store) (now : Nat)
    (query : JsVal) : Except JsErr (Option JsVal × Store) := do
  let keys := getKeys st
  let (pool, st1) ← poolLoop c now keys st []
  let best? ← jsFindBestMatch (simCfgOf cfg) query pool cfg.simThreshold
  match best? with
  | none => return (none, st1)
  | some b =>
      let r := storeGet st1 now b.key
      let itemJs := match r.1 with | some e => e.toJs | none => .null
      do
        let comp ← getFieldE itemJs "compressed"
        let res ← if jsTruthy comp then decompress c itemJs else pure itemJs
        return (some res, r.2)

/-- `cacheModule.get(query, options)`: `null` when disabled; an exact lookup
when `options.key` is truthy; otherwise the similarity fallback, returning the
matched record's `response` property, and `null` on a miss. -/
def cacheGet (c : Codec) (cfg : CacheCfg) (st : Store) (now : Nat)
    (query : JsVal) (opts : CacheOpts) : Except JsErr (JsVal × Store) :=
  if cfg.enabled = false then .ok (.null, st)
  else match truthyKey opts.key with
    | some k => getByKey c st now k
    | none =>
        if cfg.simEnabled then do
          let (best?, st1) ← findSimilar c cfg st now query
          match best? with
          | some bv =>
              if jsTruthy bv then do
                let resp ← getFieldE bv "response"
                return (resp, st1)
              else return (.null, st1)
          | none => return (.null, st1)
        else .ok (.null, st)

/-! ### A concrete codec for evaluating the embedding

A simple executable serialization (unary length prefixes, structural tags)
with identity compression; it satisfies the round-trip contracts that the
real `JSON`/`gzip`/`base64` collaborators document. -/

/-- Unary encoding of a natural number. -/
def natUnary (n : Nat) : List Char := List.replicate n '1' ++ ['0']

/-- Length-prefixed encoding of a string. -/
def encodeStr (s : String) : List Char := 's' :: (natUnary s.length ++ s.toList)

mutual

/-- Serialize a `JsVal` to characters. -/
def encodeV : JsVal → List Char
  | .undefined => ['u']
  | .null => ['n']
  | .bool true => ['t']
  | .bool false => ['f']
  | .num i => if i < 0 then '-' :: natUnary (-i).toNat else '+' :: natUnary i.toNat
  | .str s => encodeStr s
  | .obj fs => 'o' :: encodeFs fs

/-- Serialize object fields to characters. -/
def encodeFs : JsFields → List Char
  | .nil => ['e']
  | .cons k v rest => 'c' :: (encodeStr k ++ (encodeV v ++ encodeFs rest))

end

/-- Decode a unary natural number. -/
def decodeUnary : List Char → Option (Nat × List Char)
  | '0' :: rest => some (0, rest)
  | '1' :: rest => (decodeUnary rest).map (fun p => (p.1 + 1, p.2))
  | _ => none

/-- Decode a length-prefixed string. -/
def decodeStrChars (cs : List Char) : Option (String × List Char) :=
  match cs with
  | 's' :: rest =>
      match decodeUnary rest with
      | some (n, rest') =>
          if n ≤ rest'.length then some (String.mk (rest'.take n), rest'.drop n) else none
      | none => none
  | _ => none

mutual

/-- Fuel-bounded decoder for `encodeV`. -/
def decodeV : Nat → List Char → Option (JsVal × List Char)
  | 0, _ => none
  | _ + 1, 'u' :: r => some (.undefined, r)
  | _ + 1, 'n' :: r => some (.null, r)
  | _ + 1, 't' :: r => some (.bool true, r)
  | _ + 1, 'f' :: r => some (.bool false, r)
  | _ + 1, '+' :: r => (decodeUnary r).map (fun p => (.num p.1, p.2))
  | _ + 1, '-' :: r => (decodeUnary r).map (fun p => (.num (-(p.1 : Int)), p.2))
  | _ + 1, 's' :: r => (decodeStrChars ('s' :: r)).map (fun p => (.str p.1, p.2))
  | fuel + 1, 'o' :: r => (decodeFsFuel fuel r).map (fun p => (.obj p.1, p.2))
  | _ + 1, _ => none

/-- Fuel-bounded decoder for `encodeFs`. -/
def decodeFsFuel : Nat → List Char → Option (JsFields × List Char)
  | 0, _ => none
  | _ + 1, 'e' :: r => some (.nil, r)
  | fuel + 1, 'c' :: r => do
      let (k, r1) ← decodeStrChars r
      let (v, r2) ← decodeV fuel r1
      let (fs, r3) ← decodeFsFuel fuel r2
      some (.cons k v fs, r3)
  | _ + 1, _ => none

end

/-- The concrete codec used to evaluate the embedded code on closed inputs. -/
def simpleCodec : Codec where
  stringify v := String.mk (encodeV v)
  parse s :=
    match decodeV (s.length + 1) s.toList with
    | some (v, []) => some v
    | _ => none
  deflate := id
  inflate := id

/-- An identity stand-in for the `md5` hex digest, used to evaluate key
derivation on closed inputs (it is injective, the ideal form of collision
resistance). -/
def idHash (s : String) : String := s

/-! ### Concrete configurations and scenario data used by closed theorems -/

/-- The default facade configuration. -/
def cfgDefault : CacheCfg := {}

/-- The default similarity configuration. -/
def simCfgDefault : SimCfg := {}

/-- The default compression configuration. -/
def compCfgDefault : CompCfg := {}

/-- Options selecting the explicit key `"k"`. -/
def optsKeyK : CacheOpts := { key := some "k" }

/-- Options with no explicit key. -/
def noOpts : CacheOpts := {}

/-- The payload the facade builds for `set("hi", "world", {key: "k"})` at time 100. -/
def c1Payload : JsVal :=
  .obj (fieldsOf [("query", .str "hi"), ("response", .str "world"),
    ("meta", .obj (fieldsOf [("ts", .num 100), ("key", .str "k")]))])

/-- The store after that `set` (TTL is the default 30 days). -/
def c1Store : Store :=
  [("k", { value := c1Payload, createdAt := 100, expiresAt := 2592000100 })]

/-- The payload the facade builds for `set("", "resp", {})` at time 100
(the derived key hashes the base string of the empty query). -/
def c4Payload : JsVal :=
  .obj (fieldsOf [("query", .str ""), ("response", .str "resp"),
    ("meta", .obj (fieldsOf [("ts", .num 100), ("key", .str "cache:||")]))])

/-- The store after `set("", "resp", {})` under the identity hash. -/
def c4Store : Store :=
  [("cache:||", { value := c4Payload, createdAt := 100, expiresAt := 2592000100 })]

/-- A small inner value whose serialization is planted in `c2Payload`. -/
def c2Inner : JsVal := .num 1

/-- A short payload that itself carries a truthy `compressed` tag: `compress`
leaves it unchanged (below the threshold) but `decompress` then treats it as
compressed and decodes its `data` field. -/
def c2Payload : JsVal :=
  .obj (fieldsOf [("compressed", .bool true), ("encoding", .str "gzip"),
    ("data", .str (simpleCodec.stringify c2Inner))])

/-- An entry whose `expiresAt` is exactly 5. -/
def c3Entry : Entry := { value := .str "v", createdAt := 0, expiresAt := 5 }

/-- A one-entry store for the expiry-boundary scenario. -/
def c3Store : Store := [("k", c3Entry)]

/-- A store holding one already-expired entry. -/
def c10Store : Store := [("k", { value := .str "v", createdAt := 0, expiresAt := 5 })]

/-- A similarity configuration with memo capacity 1. -/
def c9Cfg : SimCfg := { cacheSize := 1 }

/-- Fold a sequence of score computations through the similarity memo. -/
def memoRun (cfg : SimCfg) (pairs : List (String × String)) : SimMemo :=
  pairs.foldl (fun cache p => (simCalculate cfg cache p.1 p.2).2) []

/-- The invariant maintained by the `findBestMatch` fold: with no best match
yet, every processed candidate scored at most the threshold; with a best match
`b`, its score is above the threshold, candidates processed before `b` scored
strictly below `b.score`, and candidates processed after it scored at most
`b.score`. -/
def FbmInv (cfg : SimCfg) (t : ℚ) (nq : String) (processed : List (String × String)) :
    Option SimMatch → Prop
  | none => ∀ kv ∈ processed, calcScore nq (simNormalize cfg kv.2) ≤ t
  | some b => t < b.score ∧ calcScore nq (simNormalize cfg b.query) = b.score ∧
      ∃ pre post, processed = pre ++ (b.key, b.query) :: post ∧
        (∀ kv ∈ pre, calcScore nq (simNormalize cfg kv.2) < b.score) ∧
        (∀ kv ∈ post, calcScore nq (simNormalize cfg kv.2) ≤ b.score)

/-! ## Theorems -/

/-- `storeCleanup` removes exactly the entries with `expiresAt < now` and
keeps the rest in order. -/
theorem storeCleanup_spec (st : Store) (now : Nat) :
    (storeCleanup st now).1 = st.countP (fun p => decide (p.2.expiresAt < now)) ∧
    (storeCleanup st now).2 = st.filter (fun p => !decide (p.2.expiresAt < now)) := by
  induction st with
  | nil => simp [storeCleanup]
  | cons hd tl ih =>
      obtain ⟨k, e⟩ := hd
      simp only [storeCleanup, List.countP_cons, List.filter_cons]
      by_cases h : e.expiresAt < now
      · simp [h, ih.1, ih.2]
      · simp [h, ih.1, ih.2]

/-- Claim C3: the claim that `storeService.get` returns an entry only when
`now < expiresAt` fails at the boundary: at `now` equal to `expiresAt` the
code still returns the entry, because its expiry test is `expiresAt < now`. -/
theorem c3_get_boundary_counterexample :
    (storeGet c3Store 5 "k").1 = some c3Entry ∧ ¬ 5 < c3Entry.expiresAt :=
  ⟨rfl, by decide⟩

/-- Claim C3 (amended): `storeService.get` returns a stored entry exactly when
it is present and `now ≤ expiresAt`; when the entry is present but
`expiresAt < now` it returns `null` and lazily deletes it, and it never
returns an entry whose `expiresAt < now`. -/
theorem c3_store_get_amended (st : Store) (now : Nat) (k : String) :
    (∀ e : Entry, (storeGet st now k).1 = some e →
        mapLookup st k = some e ∧ now ≤ e.expiresAt) ∧
    (∀ e : Entry, mapLookup st k = some e → now ≤ e.expiresAt →
        storeGet st now k = (some e, st)) ∧
    (∀ e : Entry, mapLookup st k = some e → e.expiresAt < now →
        storeGet st now k = (none, mapErase st k)) ∧
    (mapLookup st k = none → storeGet st now k = (none, st)) := by
  cases h : mapLookup st k with
  | none =>
      simp only [storeGet, h]
      exact ⟨fun e he => Option.noConfusion he, fun e he => Option.noConfusion he,
        fun e he => Option.noConfusion he, fun _ => trivial⟩
  | some e0 =>
      by_cases hexp : e0.expiresAt < now
      · simp only [storeGet, h, if_pos hexp]
        refine ⟨fun e he => Option.noConfusion he, ?_, fun e he hlt => trivial,
          fun hn => Option.noConfusion hn⟩
        intro e he hle
        cases Option.some.inj he
        omega
      · simp only [storeGet, h, if_neg hexp]
        refine ⟨?_, ?_, ?_, fun hn => Option.noConfusion hn⟩
        · intro e he
          cases Option.some.inj he
          exact ⟨rfl, by omega⟩
        · intro e he hle
          cases Option.some.inj he
          rfl
        · intro e he hlt
          cases Option.some.inj he
          omega

/-- Witness for the amended C3 theorem at a concrete store. -/
theorem c3_store_get_amended_witness :
    mapLookup c3Store "k" = some c3Entry ∧ c3Entry.expiresAt < 6 ∧
    storeGet c3Store 6 "k" = (none, mapErase c3Store "k") :=
  ⟨rfl, by decide, (c3_store_get_amended c3Store 6 "k").2.2.1 c3Entry rfl (by decide)⟩

/-- Claim C8: when every stored entry is strictly in the past or strictly in
the future of `now`, `cleanup()` removes exactly the expired entries, returns
their number, keeps the unexpired entries unchanged, and a subsequent
`getKeys()` has one key per unexpired entry. -/
theorem c8_cleanup (st : Store) (now : Nat)
    (hpart : ∀ p ∈ st, p.2.expiresAt < now ∨ now < p.2.expiresAt) :
    (storeCleanup st now).1 = st.countP (fun p => decide (p.2.expiresAt < now)) ∧
    (storeCleanup st now).2 = st.filter (fun p => !decide (p.2.expiresAt < now)) ∧
    (getKeys (storeCleanup st now).2).length =
      st.countP (fun p => decide (now < p.2.expiresAt)) := by
  obtain ⟨h1, h2⟩ := storeCleanup_spec st now
  refine ⟨h1, h2, ?_⟩
  have hlen : (getKeys (storeCleanup st now).2).length = (storeCleanup st now).2.length :=
    List.length_map _ _
  rw [hlen, h2, (List.countP_eq_length_filter _ _).symm]
  exact List.countP_congr fun p hp => by
    have := hpart p hp
    simp only [Bool.not_eq_true', decide_eq_false_iff_not, decide_eq_true_eq]
    constructor
    · intro h; omega
    · intro h; omega

/-- Witness for the C8 theorem: two expired entries and one live entry. -/
theorem c8_cleanup_witness :
    (storeCleanup [("a", ⟨JsVal.null, 0, 1⟩), ("b", ⟨JsVal.null, 0, 10⟩),
        ("c", ⟨JsVal.null, 0, 2⟩)] 5).1 = 2 ∧
    (getKeys (storeCleanup [("a", ⟨JsVal.null, 0, 1⟩), ("b", ⟨JsVal.null, 0, 10⟩),
        ("c", ⟨JsVal.null, 0, 2⟩)] 5).2).length = 1 := by
  have h := c8_cleanup [("a", ⟨JsVal.null, 0, 1⟩), ("b", ⟨JsVal.null, 0, 10⟩),
    ("c", ⟨JsVal.null, 0, 2⟩)] 5 (by decide)
  refine ⟨?_, ?_⟩
  · rw [h.1]; rfl
  · rw [h.2.2]; rfl

/-- One `_calculate` call grows the memo to at most `cacheSize + 1` entries. -/
theorem simCalculate_memo_bound (cfg : SimCfg) (cache : SimMemo) (a b : String)
    (h : cache.length ≤ cfg.cacheSize + 1) :
    ((simCalculate cfg cache a b).2).length ≤ cfg.cacheSize + 1 := by
  unfold simCalculate
  by_cases hab : a = b
  · simpa [hab]
  · simp only [if_neg hab]
    by_cases hemp : a = "" ∨ b = ""
    · simpa [hemp]
    · simp only [if_neg hemp]
      by_cases huse : cfg.useCache
      · simp only [if_pos huse]
        cases hl : memoLookup cache (memoKey a b) with
        | some v => simpa using h
        | none =>
            simp only []
            by_cases hover : cache.length > cfg.cacheSize
            · have h1 : cache.tail.length = cache.length - 1 := List.length_tail cache
              simp only [if_pos hover, List.length_append, List.length_cons,
                List.length_nil, h1]
              omega
            · simp only [if_neg hover, List.length_append, List.length_cons,
                List.length_nil]
              omega
      · simpa [huse] using h

/-- Claim C9: the claim that the memo never exceeds the configured capacity is
false: with capacity 1, three distinct score computations leave 2 entries,
because eviction only triggers once the size already exceeds the capacity. -/
theorem c9_memo_capacity_counterexample :
    (memoRun c9Cfg [("a", "b"), ("a", "c"), ("a", "d")]).length = 2 ∧
    ¬ (memoRun c9Cfg [("a", "b"), ("a", "c"), ("a", "d")]).length ≤ c9Cfg.cacheSize := by
  constructor
  · decide
  · intro h
    have h2 : (memoRun c9Cfg [("a", "b"), ("a", "c"), ("a", "d")]).length = 2 := by decide
    have h3 : c9Cfg.cacheSize = 1 := rfl
    rw [h2, h3] at h
    omega

/-- Claim C9 (amended): after any sequence of score computations the memo
holds at most `cacheSize + 1` entries, and an insertion that happens while
the memo is over capacity evicts exactly the first-inserted entry. -/
theorem c9_memo_capacity_amended (cfg : SimCfg) (pairs : List (String × String)) :
    (memoRun cfg pairs).length ≤ cfg.cacheSize + 1 ∧
    (∀ (cache : SimMemo) (a b : String), a ≠ b → ¬(a = "" ∨ b = "") →
      cfg.useCache = true → memoLookup cache (memoKey a b) = none →
      cache.length > cfg.cacheSize →
      (simCalculate cfg cache a b).2 =
        cache.tail ++ [(memoKey a b, levenshteinSim a b)]) := by
  constructor
  · have main : ∀ (ps : List (String × String)) (cache : SimMemo),
        cache.length ≤ cfg.cacheSize + 1 →
        (ps.foldl (fun cache p => (simCalculate cfg cache p.1 p.2).2) cache).length ≤
          cfg.cacheSize + 1 := by
      intro ps
      induction ps with
      | nil => intro cache h; simpa using h
      | cons hd tl ih =>
          intro cache h
          exact ih _ (simCalculate_memo_bound cfg cache hd.1 hd.2 h)
    exact main pairs [] (by simp)
  · intro cache a b hab hemp huse hmiss hover
    simp [simCalculate, hab, hemp, huse, hmiss, hover]

/-- Witness for the amended C9 theorem: the bound at the counterexample run,
and a concrete over-capacity insertion evicting the oldest entry. -/
theorem c9_memo_capacity_amended_witness :
    (memoRun c9Cfg [("a", "b"), ("a", "c"), ("a", "d")]).length ≤ c9Cfg.cacheSize + 1 ∧
    (simCalculate { cacheSize := 0 } [("x||y", 0)] "p" "q").2 =
      [("x||y", (0 : ℚ))].tail ++ [(memoKey "p" "q", levenshteinSim "p" "q")] := by
  constructor
  · exact (c9_memo_capacity_amended c9Cfg [("a", "b"), ("a", "c"), ("a", "d")]).1
  · exact (c9_memo_capacity_amended { cacheSize := 0 } []).2 [("x||y", 0)] "p" "q"
      (by decide) (by simp) rfl (by decide) (by decide)

/-- Splitting at the first `'|'` is unambiguous when the left part holds no `'|'`. -/
theorem pipe_split {a1 a2 r1 r2 : List Char} (h1 : '|' ∉ a1) (h2 : '|' ∉ a2)
    (heq : a1 ++ '|' :: r1 = a2 ++ '|' :: r2) : a1 = a2 ∧ r1 = r2 := by
  induction a1 generalizing a2 with
  | nil =>
      cases a2 with
      | nil => simpa using heq
      | cons d ds =>
          exfalso
          have hd : d = '|' := by
            have := congrArg (fun l => List.head? l) heq
            simpa using this.symm
          exact h2 (by simp [hd])
  | cons c cs ih =>
      cases a2 with
      | nil =>
          exfalso
          have hc : c = '|' := by
            have := congrArg (fun l => List.head? l) heq
            simpa using this
          exact h1 (by simp [hc])
      | cons d ds =>
          have hcd : c = d ∧ cs ++ '|' :: r1 = ds ++ '|' :: r2 := by
            simpa using heq
          have h1' : '|' ∉ cs := fun hm => h1 (List.mem_cons_of_mem _ hm)
          have h2' : '|' ∉ ds := fun hm => h2 (List.mem_cons_of_mem _ hm)
          obtain ⟨hA, hR⟩ := ih h1' h2' hcd.2
          exact ⟨by rw [hcd.1, hA], hR⟩

/-- The characters of `genKeyBase` are the three components joined by `'|'`. -/
theorem genKeyBase_data (q : String) (u m : Option String) :
    (genKeyBase q u m).data =
      (jsTrim (jsToLower q)).data ++ '|' :: ((u.getD "").data ++ '|' :: (m.getD "").data) := by
  simp [genKeyBase, String.data_append, List.append_assoc]

/-- Claim C5: the claim that any two inputs differing in normalized query,
`userId`, or `model` produce different keys is false even for an injective
(ideal) hash: the pipe-joined hash base is ambiguous, so
`("a", userId "b|", no model)` and `("a", userId "b", model "|")` collide. -/
theorem c5_key_injectivity_counterexample :
    Function.Injective idHash ∧
    (some "b|" : Option String) ≠ some "b" ∧
    generateKey idHash "a" (some "b|") none = generateKey idHash "a" (some "b") (some "|") :=
  ⟨fun _ _ h => h, by decide, by decide⟩

/-- Claim C5 (amended): key derivation is deterministic — equal normalized
queries and coalesced `userId`/`model` give equal keys — and, provided the
hash is injective and the normalized query and coalesced `userId` contain no
`'|'`, two inputs produce the same key only when all three components agree. -/
theorem c5_key_derivation_amended (hash : String → String)
    (hinj : Function.Injective hash) (q1 q2 : String) (u1 u2 m1 m2 : Option String)
    (hq1 : '|' ∉ (jsTrim (jsToLower q1)).data) (hq2 : '|' ∉ (jsTrim (jsToLower q2)).data)
    (hu1 : '|' ∉ (u1.getD "").data) (hu2 : '|' ∉ (u2.getD "").data) :
    generateKey hash q1 u1 m1 = generateKey hash q2 u2 m2 ↔
      (jsTrim (jsToLower q1) = jsTrim (jsToLower q2) ∧
        u1.getD "" = u2.getD "" ∧ m1.getD "" = m2.getD "") := by
  constructor
  · intro h
    have hdata := congrArg String.data h
    simp only [generateKey, String.data_append] at hdata
    have hhash : (hash (genKeyBase q1 u1 m1)).data = (hash (genKeyBase q2 u2 m2)).data :=
      List.append_cancel_left hdata
    have hbase := hinj (String.ext hhash)
    have hb := congrArg String.data hbase
    rw [genKeyBase_data, genKeyBase_data] at hb
    obtain ⟨hq, hrest⟩ := pipe_split hq1 hq2 hb
    obtain ⟨hu, hm⟩ := pipe_split hu1 hu2 hrest
    exact ⟨String.ext hq, String.ext hu, String.ext hm⟩
  · intro ⟨hq, hu, hm⟩
    unfold generateKey genKeyBase
    rw [hq, hu, hm]

/-- Witness for the amended C5 theorem: distinct queries really produce
distinct keys under an injective hash. -/
theorem c5_key_derivation_amended_witness :
    generateKey idHash "aa" none none ≠ generateKey idHash "bb" none none := by
  intro h
  have h2 := (c5_key_derivation_amended idHash (fun _ _ hx => hx) "aa" "bb"
    none none none none (by decide) (by decide) (by decide) (by decide)).mp h
  have h3 : jsTrim (jsToLower "aa") ≠ jsTrim (jsToLower "bb") := by decide
  exact h3 h2.1

/-- Reduction of a monadic bind on a successful `Except`. -/
theorem except_ok_bind {ε α β : Type} (a : α) (f : α → Except ε β) :
    (Except.ok a : Except ε α) >>= f = f a := rfl

/-- Reduction of a monadic bind on a failed `Except`. -/
theorem except_error_bind {ε α β : Type} (e : ε) (f : α → Except ε β) :
    (Except.error e : Except ε α) >>= f = Except.error e := rfl

/-- `pure` on `Except` is `Except.ok`. -/
theorem except_pure {ε α : Type} (a : α) : (pure a : Except ε α) = Except.ok a := rfl

/-- `throw` on `Except` is `Except.error`. -/
theorem except_throw {ε α : Type} (e : ε) : (throw e : Except ε α) = Except.error e := rfl

/-- Claim C2: the round-trip law `decompress(compress(x)) = x` for every
payload is false: a short payload that itself carries a truthy `compressed`
tag is passed through by `compress` but decoded by `decompress`, yielding the
planted inner value instead of the payload. -/
theorem c2_roundtrip_counterexample :
    decompress simpleCodec (compress simpleCodec compCfgDefault c2Payload) = .ok c2Inner ∧
    c2Inner ≠ c2Payload :=
  ⟨rfl, fun h => JsVal.noConfusion h⟩

/-- Claim C2 (amended): for every payload whose `compressed` property reads as
a falsy value, and any serializer/compressor pair satisfying the round-trip
contract at that payload, `decompress (compress x) = x` — both below the
threshold (pass-through) and at or above it (tagged gzip wrapper). -/
theorem c2_roundtrip_amended (c : Codec) (cfg : CompCfg) (x : JsVal)
    (htag : ∃ v, getFieldE x "compressed" = .ok v ∧ jsTruthy v = false)
    (hrt : c.parse (c.inflate (c.deflate (c.stringify x))) = some x) :
    decompress c (compress c cfg x) = .ok x := by
  obtain ⟨v, hv, htr⟩ := htag
  by_cases hen : cfg.enabled = false
  · simp [compress, hen, decompress, hv, htr, except_ok_bind, except_pure]
  · by_cases hlen : (c.stringify x).length < cfg.minLength
    · simp [compress, hen, hlen, decompress, hv, htr, except_ok_bind, except_pure]
    · simp [compress, hen, hlen, decompress, getFieldE, findField, fieldsOf,
        jsTruthy, hrt, except_ok_bind, except_pure]

/-- Witness for the amended C2 theorem: a payload above a small threshold goes
through the tagged wrapper and decodes back. -/
theorem c2_roundtrip_amended_witness :
    (∃ v, getFieldE (JsVal.str "hello") "compressed" = .ok v ∧ jsTruthy v = false) ∧
    simpleCodec.parse (simpleCodec.inflate (simpleCodec.deflate
      (simpleCodec.stringify (JsVal.str "hello")))) = some (JsVal.str "hello") ∧
    decompress simpleCodec (compress simpleCodec { minLength := 5 } (JsVal.str "hello")) =
      .ok (JsVal.str "hello") := by
  refine ⟨⟨.undefined, rfl, rfl⟩, rfl, ?_⟩
  exact c2_roundtrip_amended simpleCodec { minLength := 5 } (JsVal.str "hello")
    ⟨.undefined, rfl, rfl⟩ rfl

/-- One `findBestMatch` iteration preserves the fold invariant. -/
theorem fbm_step_inv (cfg : SimCfg) (t : ℚ) (nq : String)
    (processed : List (String × String)) (best : Option SimMatch) (kv : String × String)
    (h : FbmInv cfg t nq processed best) :
    FbmInv cfg t nq (processed ++ [kv]) (fbmStep cfg t nq best kv) := by
  cases best with
  | none =>
      by_cases hs : calcScore nq (simNormalize cfg kv.2) > t
      · simp only [fbmStep, if_pos hs, FbmInv]
        refine ⟨hs, trivial, processed, [], by simp, ?_, by simp⟩
        intro kv' hkv'
        exact lt_of_le_of_lt (h kv' hkv') hs
      · simp only [fbmStep, if_neg hs, FbmInv]
        intro kv' hkv'
        rcases List.mem_append.mp hkv' with h1 | h2
        · exact h kv' h1
        · rw [List.mem_singleton.mp h2]
          exact le_of_not_lt hs
  | some b =>
      obtain ⟨hbt, hbs, pre, post, hsplit, hpre, hpost⟩ := h
      by_cases hs : calcScore nq (simNormalize cfg kv.2) > t ∧
          calcScore nq (simNormalize cfg kv.2) > b.score
      · simp only [fbmStep, if_pos hs, FbmInv]
        refine ⟨hs.1, trivial, processed, [], by simp, ?_, by simp⟩
        intro kv' hkv'
        rw [hsplit] at hkv'
        rcases List.mem_append.mp hkv' with h1 | h2
        · exact lt_trans (hpre kv' h1) hs.2
        · rcases List.mem_cons.mp h2 with h3 | h4
          · rw [h3]; rw [hbs]; exact hs.2
          · exact lt_of_le_of_lt (hpost kv' h4) hs.2
      · simp only [fbmStep, if_neg hs, FbmInv]
        refine ⟨hbt, hbs, pre, post ++ [kv], ?_, hpre, ?_⟩
        · rw [hsplit, List.append_assoc, List.cons_append]
        · intro kv' hkv'
          rcases List.mem_append.mp hkv' with h1 | h2
          · exact hpost kv' h1
          · rw [List.mem_singleton.mp h2]
            rcases not_and_or.mp hs with h3 | h4
            · exact le_of_lt (lt_of_le_of_lt (le_of_not_lt h3) hbt)
            · exact le_of_not_lt h4

/-- The `findBestMatch` fold maintains the invariant over the whole pool. -/
theorem fbm_fold_inv (cfg : SimCfg) (t : ℚ) (nq : String) :
    ∀ (rest processed : List (String × String)) (best : Option SimMatch),
      FbmInv cfg t nq processed best →
      FbmInv cfg t nq (processed ++ rest) (rest.foldl (fbmStep cfg t nq) best) := by
  intro rest
  induction rest with
  | nil =>
      intro processed best h
      simpa using h
  | cons kv rest ih =>
      intro processed best h
      have h2 := ih (processed ++ [kv]) _ (fbm_step_inv cfg t nq processed best kv h)
      simpa [List.append_assoc] using h2

/-- Claim C6: `findBestMatch` returns a match only with a score strictly above
the threshold, the returned candidate occurs in the pool with that score, all
candidates before it score strictly below it (so a later equal-score candidate
never replaces an earlier one), and all candidates after it score at most it —
the first candidate achieving the strictly highest score wins. -/
theorem c6_find_best_match (cfg : SimCfg) (q : String) (pool : List (String × String))
    (t : ℚ) (b : SimMatch) (h : findBestMatch cfg q pool t = some b) :
    t < b.score ∧
    calcScore (simNormalize cfg q) (simNormalize cfg b.query) = b.score ∧
    ∃ pre post, pool = pre ++ (b.key, b.query) :: post ∧
      (∀ kv ∈ pre, calcScore (simNormalize cfg q) (simNormalize cfg kv.2) < b.score) ∧
      (∀ kv ∈ post, calcScore (simNormalize cfg q) (simNormalize cfg kv.2) ≤ b.score) := by
  unfold findBestMatch at h
  by_cases hg : cfg.enabled = false ∨ q = ""
  · rw [if_pos hg] at h
    cases h
  · rw [if_neg hg] at h
    have hinv := fbm_fold_inv cfg t (simNormalize cfg q) pool [] none
      (by intro kv hkv; cases hkv)
    rw [List.nil_append, h] at hinv
    exact hinv

/-- Evaluation of the specification's own `findBestMatch` example: the query
`"Hello World!"` over the pool `a ↦ "hello world"`, `b ↦ "goodbye"` with
threshold `0.5` matches key `a` with score exactly `1`. -/
theorem fbm_example :
    findBestMatch simCfgDefault "Hello World!" [("a", "hello world"), ("b", "goodbye")]
      (1 / 2) = some ⟨"a", "hello world", 1⟩ := by
  have hn1 : simNormalize simCfgDefault "Hello World!" = "hello world" := by decide
  have hn2 : simNormalize simCfgDefault "hello world" = "hello world" := by decide
  have hn3 : simNormalize simCfgDefault "goodbye" = "goodbye" := by decide
  have hlev : levenshtein "hello world" "goodbye" = 10 := by decide
  have hmax : max "hello world".toList.length "goodbye".toList.length = 11 := by decide
  have hgate : ¬(simCfgDefault.enabled = false ∨ "Hello World!" = "") := by decide
  have hne : ¬("hello world" : String) = "goodbye" := by decide
  have hne2 : ¬(("hello world" : String) = "" ∨ ("goodbye" : String) = "") := by decide
  have hscore : ¬(levenshteinSim "hello world" "goodbye" > 1 / 2 ∧
      levenshteinSim "hello world" "goodbye" > (1 : ℚ)) := by
    rw [levenshteinSim, hlev, hmax]
    norm_num
  rw [findBestMatch, if_neg hgate, hn1]
  rw [List.foldl_cons, List.foldl_cons, List.foldl_nil]
  rw [fbmStep]
  simp only [hn2, calcScore, if_pos rfl, if_true]
  rw [if_pos (by norm_num : (1 : ℚ) > 1 / 2)]
  rw [fbmStep]
  simp only [hn3, calcScore, if_neg hne, if_neg hne2]
  rw [if_neg hscore]

/-- Witness for the C6 theorem at the specification's own example pool. -/
theorem c6_find_best_match_witness :
    findBestMatch simCfgDefault "Hello World!" [("a", "hello world"), ("b", "goodbye")]
      (1 / 2) = some ⟨"a", "hello world", 1⟩ ∧ (1 / 2 : ℚ) < 1 :=
  ⟨fbm_example, (c6_find_best_match simCfgDefault "Hello World!"
    [("a", "hello world"), ("b", "goodbye")] (1 / 2) ⟨"a", "hello world", 1⟩ fbm_example).1⟩

/-- Base equation of the Levenshtein recurrence: empty first prefix. -/
theorem levN_zero_left (a b : List Char) (j : Nat) : levN a b 0 j = j := by
  simp [levN]

/-- Base equation of the Levenshtein recurrence: empty second prefix. -/
theorem levN_zero_right (a b : List Char) (i : Nat) : levN a b i 0 = i := by
  cases i <;> simp [levN]

/-- Step equation of the Levenshtein recurrence. -/
theorem levN_succ_succ (a b : List Char) (i j : Nat) :
    levN a b (i + 1) (j + 1) =
      min (min (levN a b i (j + 1) + 1) (levN a b (i + 1) j + 1))
        (levN a b i j + levCost (a.getD i ' ') (b.getD j ' ')) := by
  simp [levN]

/-- The Levenshtein distance between prefixes is bounded by the longer prefix. -/
theorem levN_le_max (a b : List Char) : ∀ i j, levN a b i j ≤ max i j := by
  intro i
  induction i with
  | zero => intro j; rw [levN_zero_left]; omega
  | succ i ih =>
      intro j
      cases j with
      | zero => rw [levN_zero_right]; omega
      | succ j =>
          rw [levN_succ_succ]
          have h1 := ih j
          have h2 : levCost (a.getD i ' ') (b.getD j ' ') ≤ 1 := by
            unfold levCost; split <;> omega
          omega

/-- The Levenshtein distance of a prefix with itself is zero. -/
theorem levN_self (a : List Char) : ∀ i, levN a a i i = 0 := by
  intro i
  induction i with
  | zero => rw [levN_zero_left]
  | succ i ih =>
      rw [levN_succ_succ]
      have hc : levCost (a.getD i ' ') (a.getD i ' ') = 0 := by simp [levCost]
      omega

/-- The inner loop of the dynamic program maps the suffix of the previous
matrix row (the distances from the length-`i` prefix of `as`) to the
corresponding suffix of the next row (the distances from the length-`i+1`
prefix), as given by the textbook recurrence `levN`. -/
theorem levRowGo_spec (as bs : List Char) (i : Nat) :
    ∀ (ds : List Char) (j0 : Nat), ds = bs.drop j0 → j0 ≤ bs.length →
    levRowGo (as.getD i ' ') ds
        ((List.range' j0 (bs.length + 1 - j0)).map (levN as bs i))
        (levN as bs (i + 1) j0)
      = (List.range' (j0 + 1) (bs.length - j0)).map (levN as bs (i + 1)) := by
  intro ds
  induction ds with
  | nil =>
      intro j0 hds hle
      have h0 : bs.length ≤ j0 := List.drop_eq_nil_iff.mp hds.symm
      have h1 : bs.length - j0 = 0 := by omega
      rw [h1]
      simp [levRowGo]
  | cons d ds2 ih =>
      intro j0 hds hle
      have hlt : j0 < bs.length := by
        by_contra hge
        rw [List.drop_eq_nil_iff.mpr (by omega)] at hds
        cases hds
      have hdrop := List.drop_eq_getElem_cons hlt
      rw [hdrop] at hds
      injection hds with hd hds2
      have hc1 : bs.length + 1 - j0 = (bs.length - j0) + 1 := by omega
      have hc2 : bs.length - j0 = (bs.length - (j0 + 1)) + 1 := by omega
      rw [hc1, List.range'_succ, List.map_cons, hc2, List.range'_succ, List.map_cons]
      rw [levRowGo]
      have hv : min (min (levN as bs i (j0 + 1) + 1) (levN as bs (i + 1) j0 + 1))
          (levN as bs i j0 + levCost (as.getD i ' ') d) = levN as bs (i + 1) (j0 + 1) := by
        rw [levN_succ_succ]
        rw [hd, List.getD_eq_getElem bs ' ' hlt]
      rw [hv]
      have htail := ih (j0 + 1) hds2 (by omega)
      have hc3 : bs.length + 1 - (j0 + 1) = bs.length - j0 := by omega
      rw [hc3, hc2, List.range'_succ, List.map_cons] at htail
      rw [htail, List.map_cons]

/-- The outer loop of the dynamic program carries the full row of prefix
distances from row `i` to the final row. -/
theorem levRowsLoop_spec (as bs : List Char) :
    ∀ (cs : List Char) (i : Nat), cs = as.drop i → i ≤ as.length →
    levRowsLoop bs cs ((List.range' 0 (bs.length + 1)).map (levN as bs i)) i
      = (List.range' 0 (bs.length + 1)).map (levN as bs as.length) := by
  intro cs
  induction cs with
  | nil =>
      intro i hcs hle
      have h0 : as.length ≤ i := List.drop_eq_nil_iff.mp hcs.symm
      have h1 : i = as.length := by omega
      rw [levRowsLoop, h1]
  | cons c cs2 ih =>
      intro i hcs hle
      have hlt : i < as.length := by
        by_contra hge
        rw [List.drop_eq_nil_iff.mpr (by omega)] at hcs
        cases hcs
      have hdrop := List.drop_eq_getElem_cons hlt
      rw [hdrop] at hcs
      injection hcs with hc hcs2
      rw [levRowsLoop]
      have hrow := levRowGo_spec as bs i bs 0 rfl (by omega)
      simp only [Nat.sub_zero, Nat.zero_add] at hrow
      have hcmatch : c = as.getD i ' ' := by
        rw [hc, List.getD_eq_getElem as ' ' hlt]
      have hleft : levN as bs (i + 1) 0 = i + 1 := levN_zero_right as bs (i + 1)
      have hfirst : (List.range' 0 (bs.length + 1)).map (levN as bs i) =
          levN as bs i 0 :: (List.range' 1 bs.length).map (levN as bs i) := by
        rw [List.range'_succ, List.map_cons]
      rw [hcmatch]
      rw [show levRowGo (as.getD i ' ') bs
            ((List.range' 0 (bs.length + 1)).map (levN as bs i)) (i + 1) =
          levRowGo (as.getD i ' ') bs
            ((List.range' 0 (bs.length + 1)).map (levN as bs i)) (levN as bs (i + 1) 0) from by
        rw [hleft]]
      rw [hrow]
      have hnew : (i + 1) :: (List.range' 1 bs.length).map (levN as bs (i + 1)) =
          (List.range' 0 (bs.length + 1)).map (levN as bs (i + 1)) := by
        rw [List.range'_succ, List.map_cons, levN_zero_right]
      rw [hnew]
      exact ih (i + 1) hcs2 (by omega)

/-- The dynamic program of `_levenshteinSim` computes exactly the textbook
Levenshtein distance of the two character lists. -/
theorem levenshtein_eq_levN (a b : String) :
    levenshtein a b = levN a.toList b.toList a.toList.length b.toList.length := by
  show (levRowsLoop b.toList a.toList (List.range (b.toList.length + 1)) 0).getD
      b.toList.length 0 = levN a.toList b.toList a.toList.length b.toList.length
  have hrow0 : List.range (b.toList.length + 1) =
      (List.range' 0 (b.toList.length + 1)).map (levN a.toList b.toList 0) := by
    rw [List.range_eq_range']
    have hmap : (List.range' 0 (b.toList.length + 1)).map (levN a.toList b.toList 0) =
        (List.range' 0 (b.toList.length + 1)).map (fun x => x) :=
      List.map_congr_left fun x _ => levN_zero_left _ _ x
    rw [hmap, List.map_id']
  rw [hrow0, levRowsLoop_spec a.toList b.toList a.toList 0 rfl (by omega)]
  have hlen : b.toList.length < ((List.range' 0 (b.toList.length + 1)).map
      (levN a.toList b.toList a.toList.length)).length := by
    rw [List.length_map, List.length_range']
    omega
  rw [List.getD_eq_getElem _ _ hlen, List.getElem_map, List.getElem_range']
  simp

/-- An empty string is the one whose character list is empty. -/
theorem string_eq_empty_of_toList_nil {s : String} (h : s.toList = []) : s = "" :=
  String.ext h

/-- The score of `_calculate` equals the normalized edit-distance formula
`1 - levenshtein(a,b) / max(|a|,|b|)` (with the textbook distance `levN`,
and the Lean convention `x / 0 = 0` covering the two-empty-strings case). -/
theorem calcScore_formula (a b : String) :
    calcScore a b = 1 - (levN a.toList b.toList a.toList.length b.toList.length : ℚ) /
        ((max a.toList.length b.toList.length : ℕ) : ℚ) := by
  by_cases hab : a = b
  · subst hab
    rw [calcScore, if_pos rfl, levN_self]
    simp
  · by_cases hemp : a = "" ∨ b = ""
    · rcases hemp with ha | hb
      · subst ha
        rw [calcScore, if_neg hab, if_pos (Or.inl rfl)]
        have hlen : ("" : String).toList.length = 0 := rfl
        rw [hlen, levN_zero_left]
        have hbne : b.toList.length ≠ 0 := by
          intro h
          exact hab (string_eq_empty_of_toList_nil (List.length_eq_zero.mp h)).symm
        rw [Nat.max_comm, Nat.max_zero]
        rw [div_self (by exact_mod_cast hbne)]
        norm_num
      · subst hb
        have hane : a ≠ "" := fun h => hab (by rw [h])
        rw [calcScore, if_neg hab, if_pos (Or.inr rfl)]
        have hlen : ("" : String).toList.length = 0 := rfl
        rw [hlen, levN_zero_right]
        have hane2 : a.toList.length ≠ 0 := by
          intro h
          exact hane (string_eq_empty_of_toList_nil (List.length_eq_zero.mp h))
        rw [Nat.max_zero]
        rw [div_self (by exact_mod_cast hane2)]
        norm_num
    · rw [calcScore, if_neg hab, if_neg hemp, levenshteinSim, levenshtein_eq_levN]

/-- The score of `_calculate` always lies in the interval `[0, 1]`. -/
theorem calcScore_bounds (a b : String) : 0 ≤ calcScore a b ∧ calcScore a b ≤ 1 := by
  by_cases hab : a = b
  · rw [calcScore, if_pos hab]
    norm_num
  · by_cases hemp : a = "" ∨ b = ""
    · rw [calcScore, if_neg hab, if_pos hemp]
      norm_num
    · rw [calcScore, if_neg hab, if_neg hemp, levenshteinSim]
      push_neg at hemp
      have hm : 0 < max a.toList.length b.toList.length := by
        have hne : a.toList ≠ [] := fun h => hemp.1 (string_eq_empty_of_toList_nil h)
        have := List.length_pos.mpr hne
        omega
      have hd : levenshtein a b ≤ max a.toList.length b.toList.length := by
        rw [levenshtein_eq_levN]
        exact levN_le_max _ _ _ _
      have hmq : (0 : ℚ) < ((max a.toList.length b.toList.length : ℕ) : ℚ) := by
        exact_mod_cast hm
      constructor
      · have hdiv : ((levenshtein a b : ℚ)) /
            ((max a.toList.length b.toList.length : ℕ) : ℚ) ≤ 1 := by
          rw [div_le_one hmq]
          exact_mod_cast hd
        linarith
      · have hdiv2 : (0 : ℚ) ≤ ((levenshtein a b : ℚ)) /
            ((max a.toList.length b.toList.length : ℕ) : ℚ) := by
          apply div_nonneg
          · exact_mod_cast Nat.zero_le _
          · exact le_of_lt hmq
        linarith

/-- Claim C7: the conjunct "the score is exactly 0.0 when either normalized
string is empty" is false when both normalized strings are empty: two strings
of pure punctuation normalize to the empty string and score `1.0` (the
identical-strings early return wins), not `0.0`. -/
theorem c7_score_counterexample :
    simNormalize simCfgDefault "!!!" = "" ∧ simNormalize simCfgDefault "???" = "" ∧
    calcScore (simNormalize simCfgDefault "!!!") (simNormalize simCfgDefault "???") = 1 ∧
    calcScore (simNormalize simCfgDefault "!!!") (simNormalize simCfgDefault "???") ≠ 0 := by
  have h1 : simNormalize simCfgDefault "!!!" = "" := by decide
  have h2 : simNormalize simCfgDefault "???" = "" := by decide
  have h3 : calcScore "" "" = 1 := by rw [calcScore, if_pos rfl]
  refine ⟨h1, h2, by rw [h1, h2, h3], by rw [h1, h2, h3]; norm_num⟩

/-- Claim C7 (amended): the similarity score equals
`1 - levenshtein(a,b) / max(|a|,|b|)`, lies in `[0,1]`, is exactly `1.0` for
identical strings, is exactly `0.0` when exactly one of the strings is empty,
and the Matcher on the specification's example returns key `a` with score
`1.0`; when both strings are empty the identical-strings rule applies and the
score is `1.0`, not `0.0`. -/
theorem c7_score_amended (a b : String) :
    calcScore a b = 1 - (levN a.toList b.toList a.toList.length b.toList.length : ℚ) /
        ((max a.toList.length b.toList.length : ℕ) : ℚ) ∧
    0 ≤ calcScore a b ∧ calcScore a b ≤ 1 ∧
    (a = b → calcScore a b = 1) ∧
    (a = "" → b ≠ "" → calcScore a b = 0) ∧
    (b = "" → a ≠ "" → calcScore a b = 0) ∧
    findBestMatch simCfgDefault "Hello World!" [("a", "hello world"), ("b", "goodbye")]
      (1 / 2) = some ⟨"a", "hello world", 1⟩ := by
  refine ⟨calcScore_formula a b, (calcScore_bounds a b).1, (calcScore_bounds a b).2,
    ?_, ?_, ?_, fbm_example⟩
  · intro h
    rw [calcScore, if_pos h]
  · intro ha hb
    have hab : ¬ a = b := by
      rw [ha]
      exact fun h => hb h.symm
    rw [calcScore, if_neg hab, if_pos (Or.inl ha)]
  · intro hb ha
    have hab : ¬ a = b := by
      rw [hb]
      exact ha
    rw [calcScore, if_neg hab, if_pos (Or.inr hb)]

/-- Witness for the amended C7 theorem: one-sided emptiness scores `0`,
identical strings score `1`. -/
theorem c7_score_amended_witness :
    calcScore "" "x" = 0 ∧ calcScore "x" "x" = 1 :=
  ⟨(c7_score_amended "" "x").2.2.2.2.1 rfl (by decide),
    (c7_score_amended "x" "x").2.2.2.1 rfl⟩

set_option maxRecDepth 100000 in
/-- Claim C1: evaluated on a concrete run, the facade stores the payload but
an exact `get` with the stored key before expiry returns `undefined` — not the
stored response — because `_getByKey` reads `response` (and `compressed`) on
the store item `{value, createdAt, expiresAt}` instead of on `item.value`;
after expiry it returns `null` as specified. -/
theorem c1_facade_get_returns_undefined :
    cacheSet simpleCodec idHash cfgDefault [] 100 (.str "hi") (.str "world") optsKeyK =
      .ok (true, c1Store) ∧
    cacheGet simpleCodec cfgDefault c1Store 200 (.str "hi") optsKeyK =
      .ok (.undefined, c1Store) ∧
    JsVal.undefined ≠ JsVal.str "world" ∧
    cacheGet simpleCodec cfgDefault c1Store 2592000101 (.str "hi") optsKeyK =
      .ok (.null, []) :=
  ⟨rfl, rfl, fun h => JsVal.noConfusion h, rfl⟩

set_option maxRecDepth 100000 in
/-- Claim C4: evaluated on concrete runs, `set(null, resp, {})` throws a
`TypeError` (from `query.toLowerCase()` in `_generateKey`) instead of
returning `false`, and `set("", resp, {})` succeeds and stores an entry
instead of returning `false`; `get` with a null or empty query does return
`null` without throwing. -/
theorem c4_set_invalid_input_eval :
    cacheSet simpleCodec idHash cfgDefault [] 100 .null (.str "resp") noOpts =
      .error .typeError ∧
    cacheSet simpleCodec idHash cfgDefault [] 100 (.str "") (.str "resp") noOpts =
      .ok (true, c4Store) ∧
    cacheGet simpleCodec cfgDefault [] 100 .null noOpts = .ok (.null, []) ∧
    cacheGet simpleCodec cfgDefault [] 100 (.str "") noOpts = .ok (.null, []) :=
  ⟨rfl, rfl, rfl, rfl⟩

/-- A key that `mapLookup` resolves is listed by `getKeys`. -/
theorem mapLookup_mem_keys {st : Store} {k : String} {e : Entry}
    (h : mapLookup st k = some e) : k ∈ getKeys st := by
  induction st with
  | nil => cases h
  | cons hd rest ih =>
      obtain ⟨k0, e0⟩ := hd
      by_cases hk : k0 = k
      · rw [hk]
        exact List.mem_cons_self _ _
      · rw [mapLookup, if_neg hk] at h
        exact List.mem_cons_of_mem _ (ih h)

/-- If any listed key resolves to an already-expired entry, the pool-building
loop of `_findSimilar` dereferences the `null` returned by `store.get` and
raises a `TypeError`. -/
theorem poolLoop_error (c : Codec) (now : Nat) :
    ∀ (keys : List String) (st : Store) (acc : List (String × JsVal)) (k : String) (e : Entry),
      k ∈ keys → mapLookup st k = some e → e.expiresAt < now →
      poolLoop c now keys st acc = .error .typeError := by
  intro keys
  induction keys with
  | nil =>
      intro st acc k e hk
      cases hk
  | cons k0 rest ih =>
      intro st acc k e hk hlook hexp
      cases hl0 : mapLookup st k0 with
      | none =>
          simp [poolLoop, storeGet, hl0, getFieldE, except_error_bind]
      | some e0 =>
          by_cases hexp0 : e0.expiresAt < now
          · simp [poolLoop, storeGet, hl0, if_pos hexp0, getFieldE, except_error_bind]
          · have hkrest : k ∈ rest := by
              rcases List.mem_cons.mp hk with h1 | h2
              · exfalso
                rw [h1, hl0] at hlook
                cases Option.some.inj hlook
                omega
              · exact h2
            simp only [poolLoop, storeGet, hl0, if_neg hexp0]
            simp only [Entry.toJs, fieldsOf, findField, getFieldE, jsTruthy,
              except_ok_bind]
            simp only [String.reduceEq, if_false, Bool.false_eq_true, except_ok_bind]
            exact ih st _ k e hkrest hlook hexp

/-- Claim C10: a Facade `get` without `options.key` (cache and similarity
enabled) throws a `TypeError` whenever some stored entry has expired by the
time the pool-building loop fetches it: `store.get` returns `null` and the
loop dereferences it via `item.compressed` instead of skipping the entry. -/
theorem c10_find_similar_throws (c : Codec) (cfg : CacheCfg) (st : Store) (now : Nat)
    (q : JsVal) (opts : CacheOpts) (k : String) (e : Entry)
    (hen : cfg.enabled = true) (hsim : cfg.simEnabled = true)
    (hkey : truthyKey opts.key = none)
    (hlook : mapLookup st k = some e) (hexp : e.expiresAt < now) :
    cacheGet c cfg st now q opts = .error .typeError := by
  have herr := poolLoop_error c now (getKeys st) st [] k e
    (mapLookup_mem_keys hlook) hlook hexp
  rw [cacheGet, if_neg (by rw [hen]; exact fun h => Bool.noConfusion h), hkey]
  rw [if_pos hsim]
  rw [findSimilar, herr]
  rfl

/-- Witness for the C10 theorem: a store holding one expired entry makes the
similarity `get` throw. -/
theorem c10_find_similar_throws_witness :
    cacheGet simpleCodec cfgDefault c10Store 10 (.str "q") noOpts = .error .typeError :=
  c10_find_similar_throws simpleCodec cfgDefault c10Store 10 (.str "q") noOpts "k"
    ⟨.str "v", 0, 5⟩ rfl rfl rfl rfl (by decide)

end Lulu
